import Mathlib

/-!
Verification model of the Polars parquet write-reconciliation engine
(`src/scripts/polars_parquet_reader.py`, class `PolarsParquetReader`).

The embedding mirrors the source:
* `PType` / `PFields` — the Polars dtype tree (`pl.List`, `pl.Struct` with an
  ordered field list, and primitive dtypes).  Struct fields are encoded as a
  cons list (`PFields`), matching the ordered `schema.fields` list of the
  source; field names are unique in Polars struct schemas.
* `removeEmptyStructs` — `__remove_empty_structs` (lines 75-117).  The Python
  function returns a pair `(new_schema, is_empty)` where `new_schema is None`
  exactly when `is_empty` is true, so the model returns `Option PType`
  (`none` = empty).
* `transformDataRemovingEmptyStructs` — `__transform_data_removing_empty_structs`
  (lines 119-147), stated on a row-major table; the Python column-wise
  `with_columns(cast)` is rendered as the equivalent per-row, per-entry cast.
* `writeParquetModel` — `write_parquet` (lines 149-299) together with
  `__remove_partitions` (lines 301-307), over an abstract storage state; the
  I/O it performs is recorded as an ordered `Action` trace.

External collaborators (the Storage Backend and the Table Engine's cast) are
modelled per the interface they expose: storage as explicit state, the
per-column cast (`pl.col(..).cast(..)` followed by `collect_schema`, which can
raise) as a parameter returning `Option` (`none` = the cast raised).
-/

namespace PolarsParquet

-- Polars dtype tree: primitive dtypes (by kind name), `pl.List(inner)`,
-- `pl.Struct(fields)`.
mutual

/-- Polars dtype: primitive dtype (by kind name), `pl.List(inner)`, or
`pl.Struct(fields)`. -/
inductive PType where
  | prim : String → PType
  | list : PType → PType
  | struct : PFields → PType
deriving DecidableEq, Repr

inductive PFields where
  | fnil : PFields
  | fcons : String → PType → PFields → PFields
deriving DecidableEq, Repr

end

/-- The ordered field list of a struct dtype, as a plain list. -/
def PFields.toList : PFields → List (String × PType)
  | PFields.fnil => []
  | PFields.fcons n t rest => (n, t) :: rest.toList

mutual

/-- `__remove_empty_structs` (lines 75-117): recursively strip empty struct
branches from a dtype.  Returns `none` exactly when the Python returns
`(None, True)` (the whole type is empty), `some t'` when it returns
`(t', False)`. -/
def removeEmptyStructs : PType → Option PType
  | PType.prim k => some (PType.prim k)
  | PType.list inner =>
      match removeEmptyStructs inner with
      | none => none
      | some t => some (PType.list t)
  | PType.struct fields =>
      let newFields := sanitizeFields fields
      if newFields = PFields.fnil then none else some (PType.struct newFields)

/-- The loop over `schema.fields` (lines 102-109): keep each field whose
sanitized type is non-empty, in order, with its sanitized type. -/
def sanitizeFields : PFields → PFields
  | PFields.fnil => PFields.fnil
  | PFields.fcons n t rest =>
      match removeEmptyStructs t with
      | none => sanitizeFields rest
      | some t' => PFields.fcons n t' (sanitizeFields rest)

end

-- Polars values, mirroring the dtype tree (null, primitive payload, list
-- value, struct value with named fields).
mutual

/-- A Polars value: null, primitive payload, list value, or struct value. -/
inductive PValue where
  | null : PValue
  | prim : String → PValue
  | vlist : PVList → PValue
  | vstruct : PVFields → PValue
deriving DecidableEq, Repr

inductive PVList where
  | nil : PVList
  | cons : PValue → PVList → PVList
deriving DecidableEq, Repr

inductive PVFields where
  | fnil : PVFields
  | fcons : String → PValue → PVFields → PVFields
deriving DecidableEq, Repr

end

/-- Field lookup inside a struct value. -/
def lookupVField (n : String) : PVFields → Option PValue
  | PVFields.fnil => none
  | PVFields.fcons m v rest => if m = n then some v else lookupVField n rest

mutual

/-- The Table Engine's cast of a value to a (sanitized) target dtype: struct
casts project the target's fields by name, list casts map over elements,
primitive casts keep the payload.  (Polars `cast` semantics restricted to the
shapes the sanitizer produces.) -/
def castValue : PType → PValue → PValue
  | _, PValue.null => PValue.null
  | PType.list t, PValue.vlist l => PValue.vlist (castVList t l)
  | PType.struct fts, PValue.vstruct fvs => PValue.vstruct (castVFields fts fvs)
  | _, v => v

def castVList : PType → PVList → PVList
  | _, PVList.nil => PVList.nil
  | t, PVList.cons v rest => PVList.cons (castValue t v) (castVList t rest)

def castVFields : PFields → PVFields → PVFields
  | PFields.fnil, _ => PVFields.fnil
  | PFields.fcons n t rest, fvs =>
      PVFields.fcons n (castValue t ((lookupVField n fvs).getD PValue.null))
        (castVFields rest fvs)

end

/-- A dataframe schema: the ordered `column name → dtype` mapping
(`df.collect_schema()`); column names are unique in a Polars schema. -/
abbrev Schema := List (String × PType)

/-- A row, as the ordered `column name → value` association of one record. -/
abbrev Row := List (String × PValue)

/-- A dataframe / lazy frame: its schema and its rows.  Row-major rendering of
the Polars frame; the column-wise operations of the source act per entry. -/
structure RTable where
  schema : Schema
  rows : List Row
deriving DecidableEq, Repr

/-- The per-column type rewrite of the schema-analysis loop (lines 128-138):
an empty column is `continue`d over — which leaves it in the frame with its
type unchanged — and a non-empty column gets its sanitized type (a cast is
issued only when it differs). -/
def transformColumnType (t : PType) : PType :=
  match removeEmptyStructs t with
  | none => t
  | some t' => t'

/-- Effect of the `with_columns(pl.col(c).cast(new_schema[c]))` loop
(lines 140-145) on one row entry: only columns whose sanitized type differs
from their dtype are cast; empty columns and unchanged columns keep their
value. -/
def transformEntry (s : Schema) (nv : String × PValue) : String × PValue :=
  match s.lookup nv.1 with
  | none => nv
  | some ty =>
      match removeEmptyStructs ty with
      | none => nv
      | some t' => if t' = ty then nv else (nv.1, castValue t' nv.2)

/-- Row image of the cast loop (lines 140-145). -/
def transformRow (s : Schema) (r : Row) : Row :=
  r.map (transformEntry s)

/-- `__transform_data_removing_empty_structs` (lines 119-147): analyze the
schema with `removeEmptyStructs`, then cast the columns whose sanitized type
differs.  Empty columns are skipped by the loop (`continue`, line 133) and
hence stay in the frame untouched — the function never projects them out. -/
def transformDataRemovingEmptyStructs (df : RTable) : RTable :=
  { schema := df.schema.map (fun nt => (nt.1, transformColumnType nt.2)),
    rows := df.rows.map (transformRow df.schema) }

/-- Polars `Schema.__eq__` (used at lines 187 and 198): `pl.Schema` is an
ordered mapping whose equality is order-sensitive, i.e. structural equality
of the ordered `(column name, dtype)` sequence. -/
def schemaEq (s t : Schema) : Bool :=
  decide (s = t)

/-- Union of two schemas by column name, left schema's columns first
(the schema `pl.concat(how="diagonal_relaxed")` produces). -/
def unionSchema (s t : Schema) : Schema :=
  s ++ t.filter (fun nt => !(s.any (fun nt' => nt'.1 == nt.1)))

/-- Null-pad and reorder a row to a target schema (how `diagonal_relaxed`
lays out rows of frames missing some union columns). -/
def padRow (s : Schema) (r : Row) : Row :=
  s.map (fun nt => (nt.1, (r.lookup nt.1).getD PValue.null))

/-- `pl.concat([t1, t2], how="diagonal_relaxed")` (lines 233, 264, 274):
with identical schemas a plain vertical stack; otherwise rows are laid out on
the union-by-name schema with missing columns null-padded. -/
def diagConcat (t1 t2 : RTable) : RTable :=
  if t1.schema = t2.schema then
    { schema := t1.schema, rows := t1.rows ++ t2.rows }
  else
    let u := unionSchema t1.schema t2.schema
    { schema := u, rows := t1.rows.map (padRow u) ++ t2.rows.map (padRow u) }

/-- Key-column projection of a row (the join key of `join(on=upsert_key)`);
a missing column reads as `none`. -/
def keyOf (ks : List String) (r : Row) : List (Option PValue) :=
  ks.map (fun k => r.lookup k)

/-- Partition-key projection of a row (the `select(partition_cols).unique()`
tuples, line 215-221, and the hive key of a row on disk). -/
def partKeyOf (cols : List String) (r : Row) : List (Option PValue) :=
  cols.map (fun c => r.lookup c)

/-- One I/O step of a `write_parquet` call, in program order.
Reads of existing on-disk dataset state: `probeExists` (line 166),
`listPath` (the `listdir` of `__check_path_suffix`, issued whenever
`scan_parquet` is called on the path), `readExisting` (a `collect_schema` or
`collect` that executes a plan reading the existing dataset), and
`probePartition` (line 305).  Deletions: `removeDirPath` (`remove_dir(path)`)
and `removePartition` (line 306).  `mkdirParent` covers lines 170-172 (parent
directory bookkeeping, neither a dataset read nor a deletion); `materialize`
is the final `write_parquet` call (lines 283-297). -/
inductive Action where
  | probeExists : Action
  | listPath : Action
  | readExisting : Action
  | mkdirParent : Action
  | removeDirPath : Action
  | probePartition : List (Option PValue) → Action
  | removePartition : List (Option PValue) → Action
  | materialize : Action
deriving DecidableEq, Repr

/-- The `overwrite_level` argument (`'partition' | 'full' | None`). -/
inductive OverwriteLevel where
  | partition : OverwriteLevel
  | full : OverwriteLevel
deriving DecidableEq, Repr

/-- The one error `write_parquet` raises itself: the `ValueError` of line 210
("Partition Cols are Empty though Overwrite level was set to Partition"). -/
inductive WriteError where
  | emptyPartitionCols : WriteError
deriving DecidableEq, Repr

/-- Pre-state of a write call.
`pathExists` — `self._fs.exists(path)` (line 166); `schemaReadable` — whether
`scan_parquet(path).collect_schema()` (line 167) succeeds rather than raising
`ComputeError`; `disk` — the existing dataset (meaningful when readable);
`castFn existingSchema df` — the Table Engine's attempt at
`df.with_columns([pl.col(n).cast(t) ...]).collect_schema()` (lines 191-194),
`none` when it raises. -/
structure Env where
  pathExists : Bool
  schemaReadable : Bool
  disk : RTable
  castFn : Schema → RTable → Option RTable

/-- Observable outcome of a write call: the ordered I/O trace, the incoming
frame actually used after reconciliation (`lazy_df` after lines 186-201), the
`schemas_match` flag, the sanitized table handed to the final write (if
reached), and the final on-disk rows (or the configuration error). -/
structure WriteOutcome where
  trace : List Action
  used : RTable
  schemasMatch : Bool
  written : Option RTable
  result : Except WriteError (List Row)

/-- Schema reconciliation (lines 182-201).  If the schemas already compare
equal, nothing is cast and `schemas_match` stays true.  Otherwise the cast is
attempted: on success `lazy_df` becomes the adjusted frame and
`schemas_match` is recomputed (line 198); if the cast raises, the original
frame is kept and `schemas_match` keeps its initial `false` (line 198 is
skipped by the exception). -/
def reconcileTable (castFn : Schema → RTable → Option RTable)
    (existingSchema : Schema) (df : RTable) : RTable × Bool :=
  if schemaEq existingSchema df.schema then (df, true)
  else
    match castFn existingSchema df with
    | some adj => (adj, schemaEq existingSchema adj.schema)
    | none => (df, false)

/-- `__remove_partitions` (lines 301-307): for each affected partition key in
turn, probe the partition directory (`exists`, line 305 — the directory
exists iff rows with that hive key are on disk) and, if present, remove it
recursively (line 306), dropping exactly the rows of that partition. -/
def removePartitions (cols : List String) (affected : List (List (Option PValue)))
    (disk : List Row) : List Action × List Row :=
  match affected with
  | [] => ([], disk)
  | k :: rest =>
      if disk.any (fun r => partKeyOf cols r = k) then
        let disk' := disk.filter (fun r => partKeyOf cols r ≠ k)
        let (acts, disk'') := removePartitions cols rest disk'
        (Action.probePartition k :: Action.removePartition k :: acts, disk'')
      else
        let (acts, disk'') := removePartitions cols rest disk
        (Action.probePartition k :: acts, disk'')

/-- The tail of every successful write (lines 278-297): sanitize
`df_to_write`, collect it, and materialize it at the path, whose directory
still holds `diskRemaining` — a parquet write into a dataset directory adds
files, so the final dataset is the remaining rows plus the written rows. -/
def finishWrite (tr : List Action) (used : RTable) (m : Bool) (dfw : RTable)
    (diskRemaining : List Row) : WriteOutcome :=
  let written := transformDataRemovingEmptyStructs dfw
  { trace := tr ++ [Action.materialize], used := used, schemasMatch := m,
    written := some written,
    result := Except.ok (diskRemaining ++ written.rows) }

/-- `write_parquet` (lines 149-299) over the abstract storage state.
`upsertKey`, `partitionCols`, `overwriteLevel` carry the optional arguments
(`none` = Python `None`); truthiness tests like
`upsert_key and len(upsert_key) > 0` are rendered with `Option.getD []`. -/
def writeParquetModel (env : Env) (df : RTable) (upsertKey : Option (List String))
    (partitionCols : Option (List String)) (overwriteLevel : Option OverwriteLevel) :
    WriteOutcome :=
  -- Lines 164-175: existence probe; a `ComputeError` while reading the schema
  -- removes the stale path and marks the data absent (mkdir is skipped, the
  -- exception having jumped to the handler).
  let hasExisting := env.pathExists && env.schemaReadable
  let probeTrace :=
    if env.pathExists then
      if env.schemaReadable then
        [Action.probeExists, Action.listPath, Action.readExisting, Action.mkdirParent]
      else
        [Action.probeExists, Action.listPath, Action.readExisting, Action.removeDirPath]
    else [Action.probeExists, Action.mkdirParent]
  if hasExisting then
    let existingSchema := env.disk.schema
    -- Line 180: scan of the existing dataset; line 183: its collect_schema.
    let trace1 := probeTrace ++ [Action.listPath, Action.readExisting]
    let (lazyDf, schemasMatch) := reconcileTable env.castFn existingSchema df
    match overwriteLevel with
    | some OverwriteLevel.full =>
        -- Lines 203-206: remove the whole directory, write the incoming frame.
        finishWrite (trace1 ++ [Action.removeDirPath]) lazyDf schemasMatch lazyDf []
    | some OverwriteLevel.partition =>
        -- Lines 207-236.
        if (partitionCols.getD []).isEmpty then
          -- Line 210: ValueError before any deletion or write.
          { trace := trace1, used := lazyDf, schemasMatch := schemasMatch,
            written := none, result := Except.error WriteError.emptyPartitionCols }
        else
          let cols := partitionCols.getD []
          -- Lines 215-221: distinct partition keys of the incoming frame.
          let affected := (lazyDf.rows.map (partKeyOf cols)).dedup
          -- Line 225: delete the affected partitions.
          let (remActs, disk1) := removePartitions cols affected env.disk.rows
          -- Line 228: re-scan of the (now reduced) existing dataset.
          let trace2 := trace1 ++ remActs ++ [Action.listPath]
          if schemasMatch then
            -- Line 236: only incoming is written; untouched partitions stay.
            finishWrite trace2 lazyDf schemasMatch lazyDf disk1
          else
            -- Lines 231-234: rebuild the whole dataset as the diagonal concat
            -- of incoming and the remaining existing rows (the collect of
            -- line 233 reads the existing data), then delete the directory.
            let merged := diagConcat lazyDf { schema := existingSchema, rows := disk1 }
            finishWrite (trace2 ++ [Action.readExisting, Action.removeDirPath])
              lazyDf schemasMatch merged []
    | none =>
        if !(upsertKey.getD []).isEmpty then
          let ks := upsertKey.getD []
          if !(partitionCols.getD []).isEmpty && schemasMatch then
            -- Lines 239-264: partition-scoped upsert.  Existing rows of the
            -- affected partitions that lose the anti-join on the upsert key
            -- survive; the collect of line 259 happens before the partition
            -- removal of line 262.
            let cols := partitionCols.getD []
            let affected := (lazyDf.rows.map (partKeyOf cols)).dedup
            let survivors :=
              (env.disk.rows.filter (fun r => affected.contains (partKeyOf cols r))).filter
                (fun r => !(lazyDf.rows.any (fun r' => keyOf ks r' = keyOf ks r)))
            let trace2 := trace1 ++ [Action.readExisting]
            let (remActs, disk1) := removePartitions cols affected env.disk.rows
            let merged := diagConcat lazyDf { schema := existingSchema, rows := survivors }
            finishWrite (trace2 ++ remActs) lazyDf schemasMatch merged disk1
          else
            -- Lines 266-276: whole-dataset upsert.  The anti-join survivors
            -- are collected (line 274) before the directory is removed
            -- (line 276).
            let survivors :=
              env.disk.rows.filter
                (fun r => !(lazyDf.rows.any (fun r' => keyOf ks r' = keyOf ks r)))
            let merged := diagConcat lazyDf { schema := existingSchema, rows := survivors }
            finishWrite (trace1 ++ [Action.readExisting, Action.removeDirPath])
              lazyDf schemasMatch merged []
        else
          -- No mode applies: plain fall-through, nothing deleted.  The frame
          -- written is `df_to_write`, bound at line 177 to the ORIGINAL
          -- incoming frame before reconciliation: the rebinding of `lazy_df`
          -- at line 196 does not touch it and this branch never reassigns it,
          -- so a successfully cast-adjusted frame is NOT what gets written.
          finishWrite trace1 lazyDf schemasMatch df env.disk.rows
  else
    -- No (readable) existing data (either absent, or stale and removed by the
    -- handler): write the incoming frame as-is into the empty path.
    finishWrite probeTrace df true df []

/-- The final dataset rows of a write outcome (empty on the error path). -/
def resultRows (o : WriteOutcome) : List Row :=
  match o.result with
  | Except.ok rs => rs
  | Except.error _ => []

/-- A schema none of whose column types the sanitizer would change or drop. -/
def sanitizeInvariant (s : Schema) : Bool :=
  s.all (fun nt => removeEmptyStructs nt.2 = some nt.2)

/-- Dataset reads (`exists` probes, `listdir`, schema/data reads of the
existing dataset) among the trace actions. -/
def isDiskRead : Action → Bool
  | Action.probeExists => true
  | Action.listPath => true
  | Action.readExisting => true
  | Action.probePartition _ => true
  | _ => false

/-- Deletions among the trace actions. -/
def isDeletion : Action → Bool
  | Action.removeDirPath => true
  | Action.removePartition _ => true
  | _ => false

/-- Every read of existing on-disk state precedes every deletion: after each
deletion the remaining trace is free of dataset reads. -/
def readsPrecedeDeletions : List Action → Bool
  | [] => true
  | a :: rest =>
      (if isDeletion a then rest.all (fun b => !isDiskRead b) else true)
        && readsPrecedeDeletions rest

/-- Every deletion precedes the materialization: after each materialize
action the remaining trace is free of deletions. -/
def deletionsPrecedeMaterialize : List Action → Bool
  | [] => true
  | a :: rest =>
      (if a = Action.materialize then rest.all (fun b => !isDeletion b) else true)
        && deletionsPrecedeMaterialize rest

/-! ### Concrete instances (used by counterexamples and witnesses) -/

def dtInt : PType := PType.prim "Int64"

def dtStr : PType := PType.prim "String"

def pv (s : String) : PValue := PValue.prim s

/-- Existing dataset `{id, v}` with rows `(1, a)` and `(2, b)`. -/
def diskIdV : RTable :=
  { schema := [("id", dtInt), ("v", dtStr)],
    rows := [[("id", pv "1"), ("v", pv "a")], [("id", pv "2"), ("v", pv "b")]] }

/-- A cast attempt that raises (`except` path of lines 199-201). -/
def noCast : Schema → RTable → Option RTable := fun _ _ => none

def envExisting : Env :=
  { pathExists := true, schemaReadable := true, disk := diskIdV, castFn := noCast }

def envCorrupt : Env :=
  { pathExists := true, schemaReadable := false, disk := diskIdV, castFn := noCast }

def envFresh : Env :=
  { pathExists := false, schemaReadable := false,
    disk := { schema := [], rows := [] }, castFn := noCast }

/-- Incoming `{id, v}` row `(1, z)` (the spec's Scenario B). -/
def incB : RTable :=
  { schema := [("id", dtInt), ("v", dtStr)], rows := [[("id", pv "1"), ("v", pv "z")]] }

/-- Incoming data with two rows sharing the key `id = 1`. -/
def incDup : RTable :=
  { schema := [("id", dtInt), ("v", dtStr)],
    rows := [[("id", pv "1"), ("v", pv "x")], [("id", pv "1"), ("v", pv "y")]] }

/-- Incoming data whose schema drifted (`w` instead of `v`). -/
def incNewCol : RTable :=
  { schema := [("id", dtInt), ("w", dtStr)], rows := [[("id", pv "9"), ("w", pv "q")]] }

/-- Existing partitioned dataset with partitions `region=US` and `region=EU`
(the spec's Scenario C). -/
def diskRegion : RTable :=
  { schema := [("id", dtInt), ("region", dtStr)],
    rows := [[("id", pv "1"), ("region", pv "US")], [("id", pv "2"), ("region", pv "EU")]] }

def envRegion : Env :=
  { pathExists := true, schemaReadable := true, disk := diskRegion, castFn := noCast }

/-- Incoming partitioned data touching only `region=US`, with a drifted
schema (an extra column `w`). -/
def incRegionDrift : RTable :=
  { schema := [("id", dtInt), ("region", dtStr), ("w", dtStr)],
    rows := [[("id", pv "3"), ("region", pv "US"), ("w", pv "q")]] }

/-- Incoming partitioned data touching only `region=US`, same schema as the
existing dataset. -/
def incRegionUS : RTable :=
  { schema := [("id", dtInt), ("region", dtStr)],
    rows := [[("id", pv "3"), ("region", pv "US")]] }

/-- Incoming frame whose `id` column needs a cast to the existing dtype. -/
def incStrId : RTable :=
  { schema := [("id", dtStr)], rows := [[("id", pv "1")]] }

/-- The reconciler's successfully adjusted version of `incStrId` (same row,
`id` recast to the existing `Int64` dtype). -/
def adjIntId : RTable :=
  { schema := [("id", dtInt)], rows := [[("id", pv "1")]] }

/-- A cast attempt that succeeds, adjusting the incoming frame to the
existing schema. -/
def castToInt : Schema → RTable → Option RTable := fun _ _ => some adjIntId

/-- Existing `Int64` dataset over which `incStrId` reconciles successfully. -/
def envCastable : Env :=
  { pathExists := true, schemaReadable := true,
    disk := { schema := [("id", dtInt)], rows := [[("id", pv "7")]] },
    castFn := castToInt }

/-! ### Lemmas about the schema sanitizer -/

theorem sanitize_fixpoint : ∀ t, (∀ u, removeEmptyStructs t = some u → removeEmptyStructs u = some u) := by
  intro t
  induction t using PType.rec
    (motive_2 := fun fs => sanitizeFields (sanitizeFields fs) = sanitizeFields fs) with
  | prim k =>
      intro u h
      simp only [removeEmptyStructs, Option.some.injEq] at h
      subst h
      simp [removeEmptyStructs]
  | list inner ih =>
      intro u h
      simp only [removeEmptyStructs] at h
      cases hi : removeEmptyStructs inner with
      | none => rw [hi] at h; simp at h
      | some t' =>
          rw [hi] at h
          simp only [Option.some.injEq] at h
          subst h
          simp [removeEmptyStructs, ih t' hi]
  | struct fields ih =>
      intro u h
      simp only [removeEmptyStructs] at h
      by_cases hf : sanitizeFields fields = PFields.fnil
      · simp [hf] at h
      · simp only [hf, if_false, Option.some.injEq] at h
        subst h
        simp only [removeEmptyStructs, ih]
        simp [hf]
  | fnil => simp [sanitizeFields]
  | fcons n t rest iht ihrest =>
      cases ht : removeEmptyStructs t with
      | none => simp [sanitizeFields, ht, ihrest]
      | some t' => simp [sanitizeFields, ht, iht t' ht, ihrest]

theorem sanitizeFields_idem (fs : PFields) :
    sanitizeFields (sanitizeFields fs) = sanitizeFields fs := by
  induction fs using PFields.rec
    (motive_1 := fun t => ∀ u, removeEmptyStructs t = some u → removeEmptyStructs u = some u) with
  | prim k => rename_i u h; exact sanitize_fixpoint _ u h
  | list inner _ => rename_i u h; exact sanitize_fixpoint _ u h
  | struct fields _ => rename_i u h; exact sanitize_fixpoint _ u h
  | fnil => simp [sanitizeFields]
  | fcons n t rest iht ih =>
      cases ht : removeEmptyStructs t with
      | none => simp [sanitizeFields, ht, ih]
      | some t' => simp [sanitizeFields, ht, iht t' ht, ih]

theorem transformColumnType_idem (t : PType) :
    transformColumnType (transformColumnType t) = transformColumnType t := by
  unfold transformColumnType
  cases ht : removeEmptyStructs t with
  | none => simp [ht]
  | some t' => simp [sanitize_fixpoint t t' ht]

theorem lookup_map_value (s : Schema) (f : PType → PType) (n : String) :
    (s.map (fun nt => (nt.1, f nt.2))).lookup n = (s.lookup n).map f := by
  induction s with
  | nil => rfl
  | cons hd tl ih =>
      by_cases h : n == hd.1
      · simp [List.lookup, h]
      · simp [List.lookup, h, ih]

theorem transformEntry_idem (s : Schema) (nv : String × PValue) :
    transformEntry (s.map (fun nt => (nt.1, transformColumnType nt.2)))
      (transformEntry s nv) = transformEntry s nv := by
  obtain ⟨n, v⟩ := nv
  cases hl : s.lookup n with
  | none =>
      simp [transformEntry, hl, lookup_map_value]
  | some ty =>
      cases ht : removeEmptyStructs ty with
      | none =>
          have hct : transformColumnType ty = ty := by unfold transformColumnType; rw [ht]
          simp [transformEntry, hl, ht, lookup_map_value, hct]
      | some t' =>
          have hct : transformColumnType ty = t' := by unfold transformColumnType; rw [ht]
          have hfix : removeEmptyStructs t' = some t' := sanitize_fixpoint ty t' ht
          by_cases he : t' = ty
          · subst he
            simp [transformEntry, hl, ht, lookup_map_value, hct]
          · simp [transformEntry, hl, ht, lookup_map_value, hct, hfix, he]

theorem transformRow_idem (s : Schema) (r : Row) :
    transformRow (s.map (fun nt => (nt.1, transformColumnType nt.2)))
      (transformRow s r) = transformRow s r := by
  unfold transformRow
  rw [List.map_map]
  apply List.map_congr_left
  intro nv _
  exact transformEntry_idem s nv

theorem sanitizeFields_toList (fs : PFields) :
    (sanitizeFields fs).toList
      = fs.toList.filterMap
          (fun nt => (removeEmptyStructs nt.2).map (fun t' => (nt.1, t'))) := by
  induction fs using PFields.rec (motive_1 := fun _ => True) with
  | prim k => trivial
  | list inner _ => trivial
  | struct fields _ => trivial
  | fnil => simp [sanitizeFields, PFields.toList]
  | fcons n t rest _ ih =>
      cases ht : removeEmptyStructs t with
      | none => simp [sanitizeFields, PFields.toList, ht, ih]
      | some t' => simp [sanitizeFields, PFields.toList, ht, ih]

theorem sanitizeFields_eq_fnil_iff (fs : PFields) :
    sanitizeFields fs = PFields.fnil ↔ ∀ nt ∈ fs.toList, removeEmptyStructs nt.2 = none := by
  induction fs using PFields.rec (motive_1 := fun _ => True) with
  | prim k => trivial
  | list inner _ => trivial
  | struct fields _ => trivial
  | fnil => simp [sanitizeFields, PFields.toList]
  | fcons n t rest _ ih =>
      cases ht : removeEmptyStructs t with
      | none => simp [sanitizeFields, PFields.toList, ht, ih]
      | some t' => simp [sanitizeFields, PFields.toList, ht]

/-! ### The claims about the schema sanitizer -/

/-- C8.  The recursive emptiness check of `__remove_empty_structs`: a
primitive type is never empty; `List(inner)` is empty exactly when sanitized
`inner` is empty and otherwise rebuilds to `List(inner')`; `Struct(fields)`
is empty exactly when it has zero fields or no field survives sanitization,
and otherwise rebuilds retaining exactly the fields whose sanitized type is
non-empty, sanitized, in their original relative order. -/
theorem removeEmptyStructs_characterization :
    (∀ k, removeEmptyStructs (PType.prim k) = some (PType.prim k))
  ∧ (∀ inner, removeEmptyStructs (PType.list inner)
        = (removeEmptyStructs inner).map PType.list)
  ∧ (∀ fs, (removeEmptyStructs (PType.struct fs) = none ↔
        fs.toList = [] ∨ ∀ nt ∈ fs.toList, removeEmptyStructs nt.2 = none))
  ∧ (∀ fs, removeEmptyStructs (PType.struct fs)
        = if sanitizeFields fs = PFields.fnil then none
          else some (PType.struct (sanitizeFields fs)))
  ∧ (∀ fs, (sanitizeFields fs).toList
        = fs.toList.filterMap
            (fun nt => (removeEmptyStructs nt.2).map (fun t' => (nt.1, t')))) := by
  refine ⟨fun k => rfl, fun inner => ?_, fun fs => ?_, fun fs => rfl, sanitizeFields_toList⟩
  · cases h : removeEmptyStructs inner <;> simp [removeEmptyStructs, h]
  · constructor
    · intro h
      right
      rw [← sanitizeFields_eq_fnil_iff]
      unfold removeEmptyStructs at h
      by_cases hf : sanitizeFields fs = PFields.fnil
      · exact hf
      · simp [hf] at h
    · intro h
      have hf : sanitizeFields fs = PFields.fnil := by
        rw [sanitizeFields_eq_fnil_iff]
        rcases h with h | h
        · intro nt hnt; rw [h] at hnt; cases hnt
        · exact h
      unfold removeEmptyStructs
      simp [hf]

/-- C7.  The sanitizer is idempotent: re-applying
`__transform_data_removing_empty_structs` to an already-sanitized frame
changes neither the schema nor the data. -/
theorem transformData_idempotent (df : RTable) :
    transformDataRemovingEmptyStructs (transformDataRemovingEmptyStructs df)
      = transformDataRemovingEmptyStructs df := by
  unfold transformDataRemovingEmptyStructs
  refine congrArg₂ RTable.mk ?_ ?_
  · rw [List.map_map]
    apply List.map_congr_left
    intro nt _
    simp [Function.comp, transformColumnType_idem]
  · rw [List.map_map]
    apply List.map_congr_left
    intro r _
    exact transformRow_idem df.schema r

/-- C1 (code bug).  A top-level column whose type sanitizes to empty is NOT
projected out: the loop of `__transform_data_removing_empty_structs` merely
`continue`s over it, so a frame whose only column is an empty struct passes
through `write_parquet` unchanged and the written schema still contains the
empty struct column — contradicting the function's own docstring
("removing all empty struct fields") and the comment at line 278. -/
theorem write_keeps_empty_struct_column :
    (let df : RTable := { schema := [("meta", PType.struct PFields.fnil)],
                          rows := [[("meta", PValue.vstruct PVFields.fnil)]] };
     let out := writeParquetModel
        { pathExists := false, schemaReadable := false,
          disk := { schema := [], rows := [] }, castFn := fun _ _ => none }
        df none none none;
     removeEmptyStructs (PType.struct PFields.fnil) = none
     ∧ out.written = some df
     ∧ resultRows out = df.rows) := by
  exact ⟨rfl, rfl, rfl⟩

/-! ### Lemmas about the write model -/

theorem removePartitions_rows (cols : List String) (ks : List (List (Option PValue)))
    (disk : List Row) :
    (removePartitions cols ks disk).2
      = disk.filter (fun r => decide (partKeyOf cols r ∉ ks)) := by
  induction ks generalizing disk with
  | nil => simp [removePartitions]
  | cons k rest ih =>
      unfold removePartitions
      by_cases h : disk.any (fun r => partKeyOf cols r = k)
      · rw [if_pos h]
        rw [ih]
        rw [List.filter_filter]
        apply List.filter_congr
        intro r _
        by_cases hk : partKeyOf cols r = k <;> simp [hk, List.mem_cons]
      · rw [if_neg h]
        rw [ih]
        apply List.filter_congr
        intro r hr
        have hk : ¬ partKeyOf cols r = k := by
          intro he
          exact h (List.any_eq_true.mpr ⟨r, hr, by simp [he]⟩)
        simp [hk, List.mem_cons]

theorem removePartitions_trace (cols : List String) (ks : List (List (Option PValue)))
    (disk : List Row) :
    ∀ a ∈ (removePartitions cols ks disk).1,
      ∃ k ∈ ks, a = Action.probePartition k ∨ a = Action.removePartition k := by
  induction ks generalizing disk with
  | nil => simp [removePartitions]
  | cons k rest ih =>
      unfold removePartitions
      by_cases h : disk.any (fun r => partKeyOf cols r = k)
      · rw [if_pos h]
        intro a ha
        simp only [List.mem_cons] at ha
        rcases ha with rfl | rfl | ha
        · exact ⟨k, List.mem_cons_self _ _, Or.inl rfl⟩
        · exact ⟨k, List.mem_cons_self _ _, Or.inr rfl⟩
        · obtain ⟨k', hk', ha'⟩ := ih _ a ha
          exact ⟨k', List.mem_cons_of_mem _ hk', ha'⟩
      · rw [if_neg h]
        intro a ha
        simp only [List.mem_cons] at ha
        rcases ha with rfl | ha
        · exact ⟨k, List.mem_cons_self _ _, Or.inl rfl⟩
        · obtain ⟨k', hk', ha'⟩ := ih _ a ha
          exact ⟨k', List.mem_cons_of_mem _ hk', ha'⟩

theorem mem_of_lookup_eq_some {s : Schema} {n : String} {ty : PType}
    (h : s.lookup n = some ty) : (n, ty) ∈ s := by
  induction s with
  | nil => cases h
  | cons hd tl ih =>
      unfold List.lookup at h
      by_cases hb : (n == hd.1) = true
      · rw [hb] at h
        have hn : n = hd.1 := eq_of_beq hb
        simp only [Option.some.injEq] at h
        rw [hn, ← h]
        simp
      · rw [Bool.not_eq_true] at hb
        rw [hb] at h
        exact List.mem_cons_of_mem _ (ih h)

theorem lookup_of_mem_nodup {s : Schema} {n : String} {ty : PType}
    (hnd : (s.map Prod.fst).Nodup) (hmem : (n, ty) ∈ s) : s.lookup n = some ty := by
  induction s with
  | nil => cases hmem
  | cons hd tl ih =>
      simp only [List.map_cons, List.nodup_cons] at hnd
      rcases List.mem_cons.mp hmem with rfl | h
      · simp [List.lookup]
      · have hne : n ≠ hd.1 := by
          intro he
          exact hnd.1 (he ▸ (List.mem_map.mpr ⟨(n, ty), h, rfl⟩))
        simp only [List.lookup, beq_eq_false_iff_ne.mpr hne, if_false]
        exact ih hnd.2 h

theorem schemaEq_self {s : Schema} (_hnd : (s.map Prod.fst).Nodup) :
    schemaEq s s = true := by
  simp [schemaEq]

theorem transform_id_of_invariant {t : RTable} (h : sanitizeInvariant t.schema = true) :
    transformDataRemovingEmptyStructs t = t := by
  unfold sanitizeInvariant at h
  rw [List.all_eq_true] at h
  unfold transformDataRemovingEmptyStructs
  have hsch : t.schema.map (fun nt => (nt.1, transformColumnType nt.2)) = t.schema := by
    have : t.schema.map (fun nt => (nt.1, transformColumnType nt.2)) = t.schema.map id := by
      apply List.map_congr_left
      intro nt hnt
      have hi := h nt hnt
      rw [decide_eq_true_iff] at hi
      simp [transformColumnType, hi]
    rw [this, List.map_id]
  have hrow : ∀ r : Row, transformRow t.schema r = r := by
    intro r
    unfold transformRow
    have : r.map (transformEntry t.schema) = r.map id := by
      apply List.map_congr_left
      intro nv _
      show transformEntry t.schema nv = nv
      unfold transformEntry
      cases hl : t.schema.lookup nv.1 with
      | none => rfl
      | some ty =>
          have hmem := mem_of_lookup_eq_some hl
          have hi := h (nv.1, ty) hmem
          rw [decide_eq_true_iff] at hi
          simp [hi]
    rw [this, List.map_id]
  have hrows : t.rows.map (transformRow t.schema) = t.rows := by
    have : t.rows.map (transformRow t.schema) = t.rows.map id :=
      List.map_congr_left (fun r _ => hrow r)
    rw [this, List.map_id]
  rw [hsch, hrows]

/-! ### Claims about the write reconciliation engine -/

/-- C6.  When the target path exists but reading its schema raises a
decode/compute failure (`ComputeError`, lines 173-175), the engine deletes
the stale path, treats it as holding no existing data, and completes the
write from the incoming table alone without surfacing the failure: the trace
is exactly probe, scan-list, (failing) schema read, stale-path deletion,
materialization, and the final dataset is the sanitized incoming rows. -/
theorem corrupt_existing_recovered (env : Env) (df : RTable)
    (uk pc : Option (List String)) (ol : Option OverwriteLevel)
    (h1 : env.pathExists = true) (h2 : env.schemaReadable = false) :
    (writeParquetModel env df uk pc ol).trace
        = [Action.probeExists, Action.listPath, Action.readExisting,
           Action.removeDirPath, Action.materialize]
    ∧ (writeParquetModel env df uk pc ol).result
        = Except.ok (transformDataRemovingEmptyStructs df).rows := by
  unfold writeParquetModel
  rw [h1, h2]
  simp [finishWrite]

/-- Witness for C6 at a concrete corrupt path. -/
theorem corrupt_existing_recovered_witness :
    (writeParquetModel envCorrupt incB none none none).trace
        = [Action.probeExists, Action.listPath, Action.readExisting,
           Action.removeDirPath, Action.materialize]
    ∧ (writeParquetModel envCorrupt incB none none none).result
        = Except.ok (transformDataRemovingEmptyStructs incB).rows :=
  corrupt_existing_recovered envCorrupt incB none none none rfl rfl

/-- C10 counterexample.  Over existing data with `upsert_key = []` and no
`overwrite_level`, when a schema-changing cast SUCCEEDS the program still
writes the ORIGINAL incoming frame: `df_to_write` is bound at line 177,
before reconciliation, and the fall-through branch never reassigns it — so
the final table is not the schema-adjusted incoming table (`lazy_df` was
adjusted, as `used` shows, but what is written is the original frame). -/
theorem empty_upsert_writes_original_frame :
    (writeParquetModel envCastable incStrId (some []) none none).used = adjIntId
    ∧ (writeParquetModel envCastable incStrId (some []) none none).written
        = some incStrId
    ∧ (writeParquetModel envCastable incStrId (some []) none none).written
        ≠ some adjIntId := by
  refine ⟨rfl, rfl, by decide⟩

/-- C10 (amended).  Over existing data, `upsert_key = []` with no
`overwrite_level` falls through every mode branch (`upsert_key and
len(upsert_key) > 0` is falsy at line 237): no configuration error is
raised, nothing is deleted, and the table written is the ORIGINAL incoming
table as bound at line 177 — not the schema-adjusted frame — with only the
empty-struct sanitizer applied. -/
theorem empty_upsert_list_plain_write (env : Env) (df : RTable)
    (pc : Option (List String))
    (h1 : env.pathExists = true) (h2 : env.schemaReadable = true) :
    (writeParquetModel env df (some []) pc none).trace
        = [Action.probeExists, Action.listPath, Action.readExisting,
           Action.mkdirParent, Action.listPath, Action.readExisting,
           Action.materialize]
    ∧ (writeParquetModel env df (some []) pc none).written
        = some (transformDataRemovingEmptyStructs df)
    ∧ (writeParquetModel env df (some []) pc none).result
        = Except.ok (env.disk.rows
            ++ (transformDataRemovingEmptyStructs df).rows) := by
  unfold writeParquetModel
  rw [h1, h2]
  rcases hr : reconcileTable env.castFn env.disk.schema df with ⟨adj, m⟩
  simp [hr, finishWrite]

/-- Witness for the amended C10: scenario-B data with an empty upsert key
list; nothing is deleted and the write succeeds. -/
theorem empty_upsert_list_plain_write_witness :
    (writeParquetModel envExisting incB (some []) none none).trace
        = [Action.probeExists, Action.listPath, Action.readExisting,
           Action.mkdirParent, Action.listPath, Action.readExisting,
           Action.materialize]
    ∧ (writeParquetModel envExisting incB (some []) none none).written
        = some (transformDataRemovingEmptyStructs incB)
    ∧ (writeParquetModel envExisting incB (some []) none none).result
        = Except.ok (envExisting.disk.rows
            ++ (transformDataRemovingEmptyStructs incB).rows) :=
  empty_upsert_list_plain_write envExisting incB none rfl rfl

/-- C3 counterexample.  A `PartitionOverwrite` write with absent
`partition_cols` over a path with NO existing data does not fail at all —
the `ValueError` of line 210 sits inside the `has_existing_data` branch —
so the claim's "fails with a configuration error ... regardless of whether
existing data is present" is false: here the write completes. -/
theorem partition_overwrite_no_cols_fresh_path_succeeds :
    (writeParquetModel envFresh incB none none (some OverwriteLevel.partition)).result
        = Except.ok (transformDataRemovingEmptyStructs incB).rows
    ∧ (writeParquetModel envFresh incB none none (some OverwriteLevel.partition)).trace
        = [Action.probeExists, Action.mkdirParent, Action.materialize] := by
  exact ⟨rfl, rfl⟩

/-- C3 (amended).  With existing data present, a `PartitionOverwrite`
request with empty/absent `partition_cols` raises the configuration error —
but only after the existence probe and the schema reads, and before any
deletion or materialization (the error trace contains reads only); with no
existing data present the request does not fail and the write completes. -/
theorem partition_overwrite_no_cols_behavior (env : Env) (df : RTable)
    (uk : Option (List String)) (pc : Option (List String))
    (hpc : pc.getD [] = []) :
    (env.pathExists = true → env.schemaReadable = true →
      (writeParquetModel env df uk pc (some OverwriteLevel.partition)).result
          = Except.error WriteError.emptyPartitionCols
      ∧ (writeParquetModel env df uk pc (some OverwriteLevel.partition)).trace
          = [Action.probeExists, Action.listPath, Action.readExisting,
             Action.mkdirParent, Action.listPath, Action.readExisting])
    ∧ (env.pathExists = false →
      (writeParquetModel env df uk pc (some OverwriteLevel.partition)).result
          = Except.ok (transformDataRemovingEmptyStructs df).rows
      ∧ (writeParquetModel env df uk pc (some OverwriteLevel.partition)).trace
          = [Action.probeExists, Action.mkdirParent, Action.materialize]) := by
  constructor
  · intro h1 h2
    unfold writeParquetModel
    rw [h1, h2]
    rcases hr : reconcileTable env.castFn env.disk.schema df with ⟨adj, m⟩
    simp [hr, hpc]
  · intro h1
    unfold writeParquetModel
    rw [h1]
    simp [finishWrite]

/-- Witness for the amended C3: both sides at concrete inputs. -/
theorem partition_overwrite_no_cols_behavior_witness :
    ((writeParquetModel envExisting incB none none (some OverwriteLevel.partition)).result
        = Except.error WriteError.emptyPartitionCols)
    ∧ ((writeParquetModel envFresh incB none none (some OverwriteLevel.partition)).result
        = Except.ok (transformDataRemovingEmptyStructs incB).rows) := by
  constructor
  · exact ((partition_overwrite_no_cols_behavior envExisting incB none none rfl).1 rfl rfl).1
  · exact ((partition_overwrite_no_cols_behavior envFresh incB none none rfl).2 rfl).1

/-- C4 counterexample.  With a failing cast AND `overwrite_level = "full"`,
the materialized dataset is NOT the union-by-name of old and new columns:
the old data is deleted wholesale and only the incoming rows are written
(no row of the result carries the old column `v`), so the claim's "for every
write over existing data" is too broad. -/
theorem cast_failure_full_overwrite_drops_old :
    envExisting.castFn envExisting.disk.schema incNewCol = none
    ∧ (writeParquetModel envExisting incNewCol none none
          (some OverwriteLevel.full)).schemasMatch = false
    ∧ (writeParquetModel envExisting incNewCol none none
          (some OverwriteLevel.full)).result = Except.ok incNewCol.rows
    ∧ ∀ r ∈ resultRows (writeParquetModel envExisting incNewCol none none
          (some OverwriteLevel.full)), r.lookup "v" = none := by
  refine ⟨rfl, rfl, rfl, by decide⟩

/-- C4 (amended).  When a per-column cast to the existing schema raises:
reconciliation is abandoned atomically (the table used thereafter is the
original incoming table and `schemas_match` is false, in every mode) and the
write does not abort; the materialized dataset is the union of old and new
columns null-padded in the upsert and partition-overwrite modes (via
`diagonal_relaxed` concat with the surviving/remaining existing rows) and,
with no mode set, old and new rows coexist at the path — but under
`overwrite_level = "full"` the old data is deleted and only the incoming
table is written. -/
theorem cast_failure_fallback (env : Env) (df : RTable)
    (h1 : env.pathExists = true) (h2 : env.schemaReadable = true)
    (hne : schemaEq env.disk.schema df.schema = false)
    (hcast : env.castFn env.disk.schema df = none) :
    (∀ uk pc ol, (writeParquetModel env df uk pc ol).used = df
        ∧ (writeParquetModel env df uk pc ol).schemasMatch = false)
    ∧ ((writeParquetModel env df none none none).result
        = Except.ok (env.disk.rows ++ (transformDataRemovingEmptyStructs df).rows))
    ∧ (∀ ks, ks ≠ [] → ∀ pc,
        (writeParquetModel env df (some ks) pc none).result
          = Except.ok ((transformDataRemovingEmptyStructs
              (diagConcat df
                ⟨env.disk.schema,
                  env.disk.rows.filter
                    (fun r => !(df.rows.any (fun r' => keyOf ks r' = keyOf ks r)))⟩)).rows))
    ∧ (∀ cols, cols ≠ [] → ∀ uk,
        (writeParquetModel env df uk (some cols) (some OverwriteLevel.partition)).result
          = Except.ok ((transformDataRemovingEmptyStructs
              (diagConcat df
                ⟨env.disk.schema,
                  env.disk.rows.filter (fun r =>
                    decide (partKeyOf cols r ∉ (df.rows.map (partKeyOf cols)).dedup))⟩)).rows))
    ∧ ((writeParquetModel env df none none (some OverwriteLevel.full)).result
        = Except.ok (transformDataRemovingEmptyStructs df).rows) := by
  have hrec : reconcileTable env.castFn env.disk.schema df = (df, false) := by
    unfold reconcileTable
    rw [hne, hcast]
    simp
  refine ⟨?_, ?_, ?_, ?_, ?_⟩
  · intro uk pc ol
    unfold writeParquetModel
    rw [h1, h2]
    rcases ol with _ | lv
    · by_cases hu : (uk.getD []).isEmpty
      · simp [hrec, hu, finishWrite]
      · rw [Bool.not_eq_true] at hu
        simp [hrec, hu, finishWrite]
    · cases lv
      · by_cases hp : (pc.getD []).isEmpty
        · simp [hrec, hp]
        · rw [Bool.not_eq_true] at hp
          simp [hrec, hp, finishWrite]
      · simp [hrec, finishWrite]
  · unfold writeParquetModel
    rw [h1, h2]
    simp [hrec, finishWrite]
  · intro ks hks pc
    have hk : ks.isEmpty = false := by cases ks with
      | nil => exact absurd rfl hks
      | cons a l => rfl
    unfold writeParquetModel
    rw [h1, h2]
    simp [hrec, hk, finishWrite]
  · intro cols hcols uk
    have hc : cols.isEmpty = false := by cases cols with
      | nil => exact absurd rfl hcols
      | cons a l => rfl
    unfold writeParquetModel
    rw [h1, h2]
    simp [hrec, hc, finishWrite, removePartitions_rows]
  · unfold writeParquetModel
    rw [h1, h2]
    simp [hrec, finishWrite]

/-- Witness for the amended C4 at concrete drifted data. -/
theorem cast_failure_fallback_witness :
    (writeParquetModel envExisting incNewCol (some ["id"]) none none).used = incNewCol
    ∧ (writeParquetModel envExisting incNewCol (some ["id"]) none none).schemasMatch = false
    ∧ (writeParquetModel envExisting incNewCol (some ["id"]) none none).result
        = Except.ok ((transformDataRemovingEmptyStructs
            (diagConcat incNewCol
              ⟨envExisting.disk.schema,
                envExisting.disk.rows.filter
                  (fun r => !(incNewCol.rows.any
                    (fun r' => keyOf ["id"] r' = keyOf ["id"] r)))⟩)).rows) := by
  have h := cast_failure_fallback envExisting incNewCol rfl rfl (by decide) rfl
  exact ⟨(h.1 (some ["id"]) none none).1, (h.1 (some ["id"]) none none).2,
    h.2.2.1 ["id"] (by decide) none⟩

/-- C5 counterexample.  In a partition overwrite whose schemas do NOT match,
the whole dataset directory is deleted (line 234) — including the `region=EU`
partition absent from the incoming data — and the EU rows are rewritten
null-padded to the union schema, so they are neither "never deleted" nor
"identical to their pre-write state". -/
theorem partition_overwrite_drift_rewrites_untouched :
    Action.removeDirPath ∈ (writeParquetModel envRegion incRegionDrift none
        (some ["region"]) (some OverwriteLevel.partition)).trace
    ∧ (resultRows (writeParquetModel envRegion incRegionDrift none
          (some ["region"]) (some OverwriteLevel.partition))).filter
        (fun r => partKeyOf ["region"] r = [some (pv "EU")])
      ≠ diskRegion.rows.filter (fun r => partKeyOf ["region"] r = [some (pv "EU")]) := by
  refine ⟨by decide, by decide⟩

/-- C5 (amended).  Provided schema reconciliation succeeds (the incoming
schema matches the existing one), a partition overwrite deletes only
partitions whose key occurs in the incoming data, never the whole directory,
writes the incoming table alone, and leaves every partition whose key is
absent from the incoming data with exactly its pre-write rows.  (When the
schemas cannot be reconciled the whole directory is instead deleted and
rewritten as a null-padded union, per the counterexample.) -/
theorem partition_overwrite_locality (env : Env) (df : RTable) (cols : List String)
    (uk : Option (List String))
    (h1 : env.pathExists = true) (h2 : env.schemaReadable = true)
    (hcols : cols ≠ [])
    (hnd : (df.schema.map Prod.fst).Nodup)
    (heq : env.disk.schema = df.schema)
    (hinv : sanitizeInvariant df.schema = true) :
    (writeParquetModel env df uk (some cols) (some OverwriteLevel.partition)).written
        = some df
    ∧ Action.removeDirPath ∉ (writeParquetModel env df uk (some cols)
        (some OverwriteLevel.partition)).trace
    ∧ (∀ k, Action.removePartition k ∈ (writeParquetModel env df uk (some cols)
          (some OverwriteLevel.partition)).trace → k ∈ df.rows.map (partKeyOf cols))
    ∧ (∀ v, v ∉ df.rows.map (partKeyOf cols) →
        (resultRows (writeParquetModel env df uk (some cols)
            (some OverwriteLevel.partition))).filter
          (fun r => decide (partKeyOf cols r = v))
        = env.disk.rows.filter (fun r => decide (partKeyOf cols r = v))) := by
  have hrec : reconcileTable env.castFn env.disk.schema df = (df, true) := by
    unfold reconcileTable
    rw [heq, schemaEq_self hnd]
    simp
  have htr : transformDataRemovingEmptyStructs df = df := @transform_id_of_invariant df hinv
  have hc : cols.isEmpty = false := by
    cases cols with
    | nil => exact absurd rfl hcols
    | cons a l => rfl
  rcases he : removePartitions cols ((df.rows.map (partKeyOf cols)).dedup) env.disk.rows
    with ⟨acts, disk1⟩
  have hacts := removePartitions_trace cols ((df.rows.map (partKeyOf cols)).dedup) env.disk.rows
  rw [he] at hacts
  have hd1 : disk1 = env.disk.rows.filter (fun r =>
      decide (partKeyOf cols r ∉ (df.rows.map (partKeyOf cols)).dedup)) := by
    have := removePartitions_rows cols ((df.rows.map (partKeyOf cols)).dedup) env.disk.rows
    rw [he] at this
    exact this
  have hout : writeParquetModel env df uk (some cols) (some OverwriteLevel.partition)
      = finishWrite ([Action.probeExists, Action.listPath, Action.readExisting,
            Action.mkdirParent, Action.listPath, Action.readExisting]
          ++ acts ++ [Action.listPath]) df true df disk1 := by
    unfold writeParquetModel
    rw [h1, h2]
    simp [hrec, hc, he]
  refine ⟨?_, ?_, ?_, ?_⟩
  · rw [hout]
    simp [finishWrite, htr]
  · rw [hout]
    intro hmem
    simp only [finishWrite, List.mem_append, List.mem_cons, List.not_mem_nil,
      or_false, false_or, reduceCtorEq] at hmem
    obtain ⟨k, _, hk | hk⟩ := hacts _ hmem <;> cases hk
  · intro k
    rw [hout]
    intro hmem
    simp only [finishWrite, List.mem_append, List.mem_cons, List.not_mem_nil,
      or_false, false_or, reduceCtorEq] at hmem
    obtain ⟨k', hk', hk | hk⟩ := hacts _ hmem
    · cases hk
    · cases hk
      exact List.mem_dedup.mp hk'
  · intro v hv
    rw [hout]
    have hres : resultRows (finishWrite ([Action.probeExists, Action.listPath,
          Action.readExisting, Action.mkdirParent, Action.listPath, Action.readExisting]
        ++ acts ++ [Action.listPath]) df true df disk1) = disk1 ++ df.rows := by
      simp [finishWrite, resultRows, htr]
    rw [hres, List.filter_append]
    have hdf : df.rows.filter (fun r => decide (partKeyOf cols r = v)) = [] := by
      rw [List.filter_eq_nil_iff]
      intro r hr
      simp only [decide_eq_true_eq]
      intro hkey
      exact hv (hkey ▸ List.mem_map_of_mem (partKeyOf cols) hr)
    rw [hdf, List.append_nil, hd1, List.filter_filter]
    apply List.filter_congr
    intro r _
    have hall : ∀ x ∈ df.rows, ¬ partKeyOf cols x = v := fun x hx hxe =>
      hv (hxe ▸ List.mem_map_of_mem (partKeyOf cols) hx)
    by_cases hk : partKeyOf cols r = v
    · have hnin : partKeyOf cols r ∉ (df.rows.map (partKeyOf cols)).dedup := by
        rw [List.mem_dedup, hk]
        exact hv
      simp only [hk, hnin, decide_not]
      simp
      exact hall
    · simp [hk]

/-- Witness for the amended C5: scenario C — overwrite `region=US` with
matching schemas; the `region=EU` partition is untouched. -/
theorem partition_overwrite_locality_witness :
    (writeParquetModel envRegion incRegionUS none (some ["region"])
        (some OverwriteLevel.partition)).written = some incRegionUS
    ∧ Action.removeDirPath ∉ (writeParquetModel envRegion incRegionUS none
        (some ["region"]) (some OverwriteLevel.partition)).trace
    ∧ (resultRows (writeParquetModel envRegion incRegionUS none (some ["region"])
          (some OverwriteLevel.partition))).filter
        (fun r => decide (partKeyOf ["region"] r = [some (pv "EU")]))
      = envRegion.disk.rows.filter
          (fun r => decide (partKeyOf ["region"] r = [some (pv "EU")])) := by
  have h := partition_overwrite_locality envRegion incRegionUS ["region"] none
    rfl rfl (by decide) (by decide) (by decide) (by decide)
  exact ⟨h.1, h.2.1, h.2.2.2 [some (pv "EU")] (by decide)⟩

/-- C2 counterexample.  An upsert whose incoming data itself carries two
rows with the same key writes both of them: the materialized dataset holds
two rows with `id = 1`, so "exactly one row per key-column combination" does
not hold for every upsert write. -/
theorem upsert_duplicate_incoming_keys :
    (resultRows (writeParquetModel envExisting incDup (some ["id"]) none none)).countP
        (fun r => decide (keyOf ["id"] r = [some (pv "1")])) = 2
    ∧ incDup.rows.countP (fun r => decide (keyOf ["id"] r = [some (pv "1")])) = 2 := by
  refine ⟨by decide, by decide⟩

/-- C2 (amended).  For a whole-dataset upsert over existing data (no
partition scoping) with matching schemas, provided the incoming and the
existing data each hold at most one row per key combination: the dataset
after the write holds exactly one row per key; every incoming row is present
(new data wins); every existing row whose key is absent from the incoming
data is present; and every final row is either an incoming row or such a
surviving existing row.  (Partition-scoped upserts keep matching-key rows in
untouched partitions, and key-duplicated inputs are written as-is, per the
counterexample.) -/
theorem upsert_whole_dataset_semantics (env : Env) (df : RTable) (ks : List String)
    (h1 : env.pathExists = true) (h2 : env.schemaReadable = true)
    (hks : ks ≠ [])
    (hnd : (df.schema.map Prod.fst).Nodup)
    (heq : env.disk.schema = df.schema)
    (hinv : sanitizeInvariant df.schema = true)
    (hkdf : (df.rows.map (keyOf ks)).Nodup)
    (hkdisk : (env.disk.rows.map (keyOf ks)).Nodup) :
    (writeParquetModel env df (some ks) none none).result
        = Except.ok (df.rows ++ env.disk.rows.filter
            (fun r => !(df.rows.any (fun r' => keyOf ks r' = keyOf ks r))))
    ∧ ((resultRows (writeParquetModel env df (some ks) none none)).map (keyOf ks)).Nodup
    ∧ (∀ r ∈ df.rows, r ∈ resultRows (writeParquetModel env df (some ks) none none))
    ∧ (∀ r ∈ env.disk.rows, keyOf ks r ∉ df.rows.map (keyOf ks) →
        r ∈ resultRows (writeParquetModel env df (some ks) none none))
    ∧ (∀ r ∈ resultRows (writeParquetModel env df (some ks) none none),
        r ∈ df.rows ∨ (r ∈ env.disk.rows ∧ keyOf ks r ∉ df.rows.map (keyOf ks))) := by
  have hrec : reconcileTable env.castFn env.disk.schema df = (df, true) := by
    unfold reconcileTable
    rw [heq, schemaEq_self hnd]
    simp
  have hk : ks.isEmpty = false := by
    cases ks with
    | nil => exact absurd rfl hks
    | cons a l => rfl
  have hsurv : ∀ r, (!(df.rows.any (fun r' => keyOf ks r' = keyOf ks r))) = true
      ↔ keyOf ks r ∉ df.rows.map (keyOf ks) := by
    intro r
    rw [Bool.not_eq_true', List.any_eq_false]
    constructor
    · intro h hmem
      obtain ⟨r', hr', hkey⟩ := List.mem_map.mp hmem
      exact absurd (by simpa using hkey) (by simpa using h r' hr')
    · intro h r' hr'
      intro hkey
      rw [decide_eq_true_eq] at hkey
      exact h (hkey ▸ List.mem_map_of_mem (keyOf ks) hr')
  have hmerged : diagConcat df ⟨env.disk.schema, env.disk.rows.filter
        (fun r => !(df.rows.any (fun r' => keyOf ks r' = keyOf ks r)))⟩
      = ⟨df.schema, df.rows ++ env.disk.rows.filter
          (fun r => !(df.rows.any (fun r' => keyOf ks r' = keyOf ks r)))⟩ := by
    unfold diagConcat
    rw [heq]
    simp
  have hout : writeParquetModel env df (some ks) none none
      = finishWrite ([Action.probeExists, Action.listPath, Action.readExisting,
            Action.mkdirParent, Action.listPath, Action.readExisting]
          ++ [Action.readExisting, Action.removeDirPath])
          df true
          ⟨df.schema, df.rows ++ env.disk.rows.filter
            (fun r => !(df.rows.any (fun r' => keyOf ks r' = keyOf ks r)))⟩ [] := by
    unfold writeParquetModel
    rw [h1, h2]
    simp [hrec, hk, hmerged]
  have htr : transformDataRemovingEmptyStructs
      ⟨df.schema, df.rows ++ env.disk.rows.filter
        (fun r => !(df.rows.any (fun r' => keyOf ks r' = keyOf ks r)))⟩
      = ⟨df.schema, df.rows ++ env.disk.rows.filter
        (fun r => !(df.rows.any (fun r' => keyOf ks r' = keyOf ks r)))⟩ :=
    transform_id_of_invariant hinv
  have hres : resultRows (writeParquetModel env df (some ks) none none)
      = df.rows ++ env.disk.rows.filter
          (fun r => !(df.rows.any (fun r' => keyOf ks r' = keyOf ks r))) := by
    rw [hout]
    simp [finishWrite, resultRows, htr]
  refine ⟨?_, ?_, ?_, ?_, ?_⟩
  · rw [hout]
    simp [finishWrite, htr]
  · rw [hres, List.map_append, List.nodup_append]
    refine ⟨hkdf, ?_, ?_⟩
    · exact ((List.filter_sublist _).map (keyOf ks)).nodup hkdisk
    · intro k hk1 hk2
      obtain ⟨r, hr, hkey⟩ := List.mem_map.mp hk2
      have hr' := List.of_mem_filter hr
      rw [hsurv r] at hr'
      exact hr' (hkey ▸ hk1)
  · intro r hr
    rw [hres]
    exact List.mem_append_left _ hr
  · intro r hr hkey
    rw [hres]
    refine List.mem_append_right _ (List.mem_filter.mpr ⟨hr, ?_⟩)
    rw [hsurv r]
    exact hkey
  · intro r hr
    rw [hres] at hr
    rcases List.mem_append.mp hr with h | h
    · exact Or.inl h
    · refine Or.inr ⟨List.of_mem_filter h |> fun hp => List.mem_of_mem_filter h, ?_⟩
      have hp := List.of_mem_filter h
      rw [hsurv r] at hp
      exact hp

/-- Witness for the amended C2: scenario B — upsert `(1, z)` into
`{(1, a), (2, b)}` yields `{(1, z), (2, b)}` with one row per key. -/
theorem upsert_whole_dataset_semantics_witness :
    (writeParquetModel envExisting incB (some ["id"]) none none).result
        = Except.ok (incB.rows ++ envExisting.disk.rows.filter
            (fun r => !(incB.rows.any (fun r' => keyOf ["id"] r' = keyOf ["id"] r))))
    ∧ ((resultRows (writeParquetModel envExisting incB (some ["id"]) none none)).map
        (keyOf ["id"])).Nodup := by
  have h := upsert_whole_dataset_semantics envExisting incB ["id"]
    rfl rfl (by decide) (by decide) (by decide) (by decide) (by decide) (by decide)
  exact ⟨h.1, h.2.1⟩

theorem removePartitions_no_materialize (cols : List String)
    (ks : List (List (Option PValue))) (disk : List Row) :
    ∀ a ∈ (removePartitions cols ks disk).1, a ≠ Action.materialize := by
  intro a ha
  obtain ⟨k, _, h | h⟩ := removePartitions_trace cols ks disk a ha
  · rw [h]; intro hc; cases hc
  · rw [h]; intro hc; cases hc

theorem dpm_of_shape (tr l : List Action) (he : tr = l ++ [Action.materialize])
    (h : Action.materialize ∉ l) : deletionsPrecedeMaterialize tr = true := by
  subst he
  induction l with
  | nil => rfl
  | cons a rest ih =>
      rw [List.cons_append]
      unfold deletionsPrecedeMaterialize
      have ha : ¬ a = Action.materialize := by
        intro hc
        exact h (hc ▸ List.mem_cons_self a rest)
      rw [if_neg ha]
      rw [Bool.true_and]
      exact ih (fun hc => h (List.mem_cons_of_mem a hc))

/-- C9 counterexample.  In partition-overwrite mode the engine re-scans the
existing dataset (line 228, collected at line 233) and probes partition
directories after earlier partition deletions, so "all reads of existing
on-disk state happen before any deletion" fails on a concrete
schema-drifted partition overwrite. -/
theorem reads_follow_deletions_in_partition_overwrite :
    readsPrecedeDeletions (writeParquetModel envRegion incRegionDrift none
        (some ["region"]) (some OverwriteLevel.partition)).trace = false := by
  decide

/-- C9 (amended).  Within one write call every deletion precedes the final
materialization, in every mode; and when no partition columns are supplied
(so no partition-scoped path runs) every read of existing on-disk state
precedes every deletion.  Partition-scoped paths interleave: per-partition
existence probes and the partition-overwrite re-scan of remaining data occur
after earlier partition deletions (per the counterexample). -/
theorem write_ordering (env : Env) (df : RTable) (uk pc : Option (List String))
    (ol : Option OverwriteLevel) :
    deletionsPrecedeMaterialize (writeParquetModel env df uk pc ol).trace = true
    ∧ (pc.getD [] = [] →
        readsPrecedeDeletions (writeParquetModel env df uk pc ol).trace = true) := by
  cases hpe : env.pathExists with
  | false =>
      have htr : (writeParquetModel env df uk pc ol).trace
          = [Action.probeExists, Action.mkdirParent] ++ [Action.materialize] := by
        unfold writeParquetModel
        rw [hpe]
        simp [finishWrite]
      rw [htr]
      exact ⟨by decide, fun _ => by decide⟩
  | true =>
      cases hsr : env.schemaReadable with
      | false =>
          have htr : (writeParquetModel env df uk pc ol).trace
              = [Action.probeExists, Action.listPath, Action.readExisting,
                 Action.removeDirPath] ++ [Action.materialize] := by
            unfold writeParquetModel
            rw [hpe, hsr]
            simp [finishWrite]
          rw [htr]
          exact ⟨by decide, fun _ => by decide⟩
      | true =>
          rcases hrec : reconcileTable env.castFn env.disk.schema df with ⟨adj, m⟩
          rcases ol with _ | lv
          · -- overwrite_level = None
            cases hu : (uk.getD []).isEmpty with
            | true =>
                have htr : (writeParquetModel env df uk pc none).trace
                    = [Action.probeExists, Action.listPath, Action.readExisting,
                       Action.mkdirParent, Action.listPath, Action.readExisting]
                      ++ [Action.materialize] := by
                  unfold writeParquetModel
                  rw [hpe, hsr]
                  simp [hrec, hu, finishWrite]
                rw [htr]
                exact ⟨by decide, fun _ => by decide⟩
            | false =>
                cases hsc : (!(pc.getD []).isEmpty && m) with
                | true =>
                    have htr : (writeParquetModel env df uk pc none).trace
                        = ([Action.probeExists, Action.listPath, Action.readExisting,
                            Action.mkdirParent, Action.listPath, Action.readExisting,
                            Action.readExisting]
                           ++ (removePartitions (pc.getD [])
                                ((adj.rows.map (partKeyOf (pc.getD []))).dedup)
                                env.disk.rows).1)
                          ++ [Action.materialize] := by
                      unfold writeParquetModel
                      rw [hpe, hsr]
                      simp [hrec, hu, hsc, finishWrite]
                    constructor
                    · refine dpm_of_shape _ _ htr ?_
                      rw [List.mem_append]
                      rintro (h | h)
                      · simp at h
                      · exact removePartitions_no_materialize _ _ _ _ h rfl
                    · intro hpc
                      rw [hpc] at hsc
                      simp at hsc
                | false =>
                    have htr : (writeParquetModel env df uk pc none).trace
                        = [Action.probeExists, Action.listPath, Action.readExisting,
                           Action.mkdirParent, Action.listPath, Action.readExisting,
                           Action.readExisting, Action.removeDirPath]
                          ++ [Action.materialize] := by
                      unfold writeParquetModel
                      rw [hpe, hsr]
                      simp [hrec, hu, hsc, finishWrite]
                    rw [htr]
                    exact ⟨by decide, fun _ => by decide⟩
          · cases lv with
            | partition =>
                cases hp : (pc.getD []).isEmpty with
                | true =>
                    have htr : (writeParquetModel env df uk pc
                          (some OverwriteLevel.partition)).trace
                        = [Action.probeExists, Action.listPath, Action.readExisting,
                           Action.mkdirParent, Action.listPath, Action.readExisting] := by
                      unfold writeParquetModel
                      rw [hpe, hsr]
                      simp [hrec, hp]
                    rw [htr]
                    exact ⟨by decide, fun _ => by decide⟩
                | false =>
                    cases m with
                    | true =>
                        have htr : (writeParquetModel env df uk pc
                              (some OverwriteLevel.partition)).trace
                            = ([Action.probeExists, Action.listPath, Action.readExisting,
                                Action.mkdirParent, Action.listPath, Action.readExisting]
                               ++ (removePartitions (pc.getD [])
                                    ((adj.rows.map (partKeyOf (pc.getD []))).dedup)
                                    env.disk.rows).1
                               ++ [Action.listPath])
                              ++ [Action.materialize] := by
                          unfold writeParquetModel
                          rw [hpe, hsr]
                          simp [hrec, hp, finishWrite]
                        constructor
                        · refine dpm_of_shape _ _ htr ?_
                          rw [List.mem_append, List.mem_append]
                          rintro ((h | h) | h)
                          · simp at h
                          · exact removePartitions_no_materialize _ _ _ _ h rfl
                          · simp at h
                        · intro hpc
                          rw [hpc] at hp
                          simp at hp
                    | false =>
                        have htr : (writeParquetModel env df uk pc
                              (some OverwriteLevel.partition)).trace
                            = (([Action.probeExists, Action.listPath, Action.readExisting,
                                 Action.mkdirParent, Action.listPath, Action.readExisting]
                                ++ (removePartitions (pc.getD [])
                                     ((adj.rows.map (partKeyOf (pc.getD []))).dedup)
                                     env.disk.rows).1
                                ++ [Action.listPath])
                               ++ [Action.readExisting, Action.removeDirPath])
                              ++ [Action.materialize] := by
                          unfold writeParquetModel
                          rw [hpe, hsr]
                          simp [hrec, hp, finishWrite]
                        constructor
                        · refine dpm_of_shape _ _ htr ?_
                          rw [List.mem_append, List.mem_append, List.mem_append]
                          rintro (((h | h) | h) | h)
                          · simp at h
                          · exact removePartitions_no_materialize _ _ _ _ h rfl
                          · simp at h
                          · simp at h
                        · intro hpc
                          rw [hpc] at hp
                          simp at hp
            | full =>
                have htr : (writeParquetModel env df uk pc
                      (some OverwriteLevel.full)).trace
                    = [Action.probeExists, Action.listPath, Action.readExisting,
                       Action.mkdirParent, Action.listPath, Action.readExisting,
                       Action.removeDirPath] ++ [Action.materialize] := by
                  unfold writeParquetModel
                  rw [hpe, hsr]
                  simp [hrec, finishWrite]
                rw [htr]
                exact ⟨by decide, fun _ => by decide⟩

/-- Witness for the amended C9: a concrete whole-dataset upsert — deletions
precede materialization and reads precede deletions. -/
theorem write_ordering_witness :
    deletionsPrecedeMaterialize
        (writeParquetModel envExisting incB (some ["id"]) none none).trace = true
    ∧ readsPrecedeDeletions
        (writeParquetModel envExisting incB (some ["id"]) none none).trace = true := by
  have h := write_ordering envExisting incB (some ["id"]) none none
  exact ⟨h.1, h.2 rfl⟩

end PolarsParquet
